import Mathlib

/-!
Verification development for `eow_report.py`.

The script has three pieces with observable semantics:

* `find_latest_eow_file` — glob a directory for `*EOW*.xlsx` and return the
  file with the largest modification time, raising `FileNotFoundError` when
  nothing matches;
* `clean_spreadsheet` — parse the combined `Date Time` column
  (`errors='coerce'`, so failures become `NaT`), build text `Date`
  (`%m/%d/%Y`) and `Time` (`%H:%M`) columns, sort by `(DateOrig, Time)`
  (pandas default `na_position='last'`, stable), then
  `groupby('DateOrig', group_keys=False).apply(blank_group)` which keeps the
  first row of each date group and blanks the `Date` cell of the rest —
  note that pandas `groupby` *drops* rows whose key is `NaT`
  (`dropna=True` is the default), so rows with unparseable timestamps
  disappear from the result;
* the report-period computation at the top of `write_formatted_excel`.

The embedding below models cells as `Option` values (`none` = `NaN`/`NaT`),
machine timestamps as records of naturals, and data frames as lists of rows.
-/

/-- Calendar date part of a pandas `Timestamp`. -/
structure DateT where
  y : Nat
  m : Nat
  d : Nat
deriving DecidableEq

/-- Time-of-day part of a pandas `Timestamp`. -/
structure TimeT where
  hour : Nat
  minute : Nat
deriving DecidableEq

/-- A parsed `Date Time` cell value. -/
structure DT where
  date : DateT
  time : TimeT
deriving DecidableEq

/-- Ranges guaranteed for any real pandas `Timestamp` date (pandas
timestamps live between the years 1677 and 2262). -/
def DateT.IsValid (x : DateT) : Prop :=
  1000 ≤ x.y ∧ x.y ≤ 9999 ∧ 1 ≤ x.m ∧ x.m ≤ 12 ∧ 1 ≤ x.d ∧ x.d ≤ 31

/-- Ranges guaranteed for any real pandas `Timestamp` time of day. -/
def TimeT.IsValid (x : TimeT) : Prop := x.hour ≤ 23 ∧ x.minute ≤ 59

/-- Validity of a complete timestamp. -/
def DT.IsValid (x : DT) : Prop := x.date.IsValid ∧ x.time.IsValid

instance (x : DateT) : Decidable x.IsValid := by unfold DateT.IsValid; infer_instance

instance (x : TimeT) : Decidable x.IsValid := by unfold TimeT.IsValid; infer_instance

instance (x : DT) : Decidable x.IsValid := by unfold DT.IsValid; infer_instance

/-- ASCII digit character for a digit value (decimal printing of the
zero-padded numeric fields of `strftime`). -/
def digitChar (n : Nat) : Char :=
  if n = 0 then '0' else if n = 1 then '1' else if n = 2 then '2'
  else if n = 3 then '3' else if n = 4 then '4' else if n = 5 then '5'
  else if n = 6 then '6' else if n = 7 then '7' else if n = 8 then '8'
  else if n = 9 then '9' else '0'

/-- Digit value of an ASCII digit character, `none` otherwise. -/
def digitVal (c : Char) : Option Nat :=
  if c = '0' then some 0 else if c = '1' then some 1 else if c = '2' then some 2
  else if c = '3' then some 3 else if c = '4' then some 4 else if c = '5' then some 5
  else if c = '6' then some 6 else if c = '7' then some 7 else if c = '8' then some 8
  else if c = '9' then some 9 else none

/-- Models `Timestamp.strftime("%m/%d/%Y")`: zero-padded month and day and
a four-digit year. -/
def fmtDate (x : DateT) : String :=
  String.mk [digitChar (x.m / 10), digitChar (x.m % 10), '/',
    digitChar (x.d / 10), digitChar (x.d % 10), '/',
    digitChar (x.y / 1000), digitChar (x.y / 100 % 10),
    digitChar (x.y / 10 % 10), digitChar (x.y % 10)]

/-- Models `Timestamp.strftime("%H:%M")`. -/
def fmtTime (x : TimeT) : String :=
  String.mk [digitChar (x.hour / 10), digitChar (x.hour % 10), ':',
    digitChar (x.minute / 10), digitChar (x.minute % 10)]

/-- Models `pd.to_datetime(s, format="%m/%d/%Y", errors='coerce')` on the
strings this pipeline produces: a strict `mm/dd/yyyy` parse with range
checks, `none` on failure. -/
def parseDate (s : String) : Option DateT :=
  match s.toList with
  | [m1, m2, s1, d1, d2, s2, y1, y2, y3, y4] =>
    if s1 = '/' ∧ s2 = '/' then
      match digitVal m1, digitVal m2, digitVal d1, digitVal d2,
          digitVal y1, digitVal y2, digitVal y3, digitVal y4 with
      | some a, some b, some c, some e, some f, some g, some h, some i =>
        if 1 ≤ 10 * a + b ∧ 10 * a + b ≤ 12 ∧ 1 ≤ 10 * c + e ∧ 10 * c + e ≤ 31 then
          some ⟨1000 * f + 100 * g + 10 * h + i, 10 * a + b, 10 * c + e⟩
        else none
      | _, _, _, _, _, _, _, _ => none
    else none
  | _ => none

/-- Models parsing an `HH:MM` string back to a time of day, with range
checks, `none` on failure. -/
def parseTime (s : String) : Option TimeT :=
  match s.toList with
  | [h1, h2, s1, m1, m2] =>
    if s1 = ':' then
      match digitVal h1, digitVal h2, digitVal m1, digitVal m2 with
      | some a, some b, some c, some d =>
        if 10 * a + b ≤ 23 ∧ 10 * c + d ≤ 59 then some ⟨10 * a + b, 10 * c + d⟩ else none
      | _, _, _, _ => none
    else none
  | _ => none

theorem digitVal_digitChar {k : Nat} (hk : k ≤ 9) : digitVal (digitChar k) = some k := by
  interval_cases k <;> rfl

theorem digitVal_eq_some {c : Char} {k : Nat} (h : digitVal c = some k) :
    c = digitChar k ∧ k ≤ 9 := by
  unfold digitVal at h
  split_ifs at h <;>
    first
      | exact Option.noConfusion h
      | (injection h with h2; subst h2; subst c; exact ⟨by decide, by decide⟩)

theorem parseDate_fmtDate {x : DateT} (h : x.IsValid) : parseDate (fmtDate x) = some x := by
  obtain ⟨h1, h2, h3, h4, h5, h6⟩ := h
  unfold fmtDate parseDate
  simp only [String.toList]
  rw [digitVal_digitChar (by omega), digitVal_digitChar (by omega),
    digitVal_digitChar (by omega), digitVal_digitChar (by omega),
    digitVal_digitChar (by omega), digitVal_digitChar (by omega),
    digitVal_digitChar (by omega), digitVal_digitChar (by omega)]
  have hm : 10 * (x.m / 10) + x.m % 10 = x.m := by omega
  have hd : 10 * (x.d / 10) + x.d % 10 = x.d := by omega
  have hy : 1000 * (x.y / 1000) + 100 * (x.y / 100 % 10) + 10 * (x.y / 10 % 10) + x.y % 10 = x.y := by
    omega
  simp only [hm, hd, hy]
  split_ifs with hA hB <;>
    first
      | rfl
      | exact absurd (show 1 ≤ x.m ∧ x.m ≤ 12 ∧ 1 ≤ x.d ∧ x.d ≤ 31 from ⟨h3, h4, h5, h6⟩)
          (by assumption)
      | simp_all

theorem parseTime_fmtTime {x : TimeT} (h : x.IsValid) : parseTime (fmtTime x) = some x := by
  obtain ⟨h1, h2⟩ := h
  unfold fmtTime parseTime
  simp only [String.toList]
  rw [digitVal_digitChar (by omega), digitVal_digitChar (by omega),
    digitVal_digitChar (by omega), digitVal_digitChar (by omega)]
  have hh : 10 * (x.hour / 10) + x.hour % 10 = x.hour := by omega
  have hm : 10 * (x.minute / 10) + x.minute % 10 = x.minute := by omega
  simp only [hh, hm]
  split_ifs with hA hB <;>
    first
      | rfl
      | exact absurd (show x.hour ≤ 23 ∧ x.minute ≤ 59 from ⟨h1, h2⟩) (by assumption)
      | simp_all

theorem parseDate_inv {s : String} {k : DateT} (h : parseDate s = some k) :
    s = fmtDate k ∧ 1 ≤ k.m ∧ k.m ≤ 12 ∧ 1 ≤ k.d ∧ k.d ≤ 31 ∧ k.y ≤ 9999 := by
  obtain ⟨cs⟩ := s
  unfold parseDate at h
  split at h
  next m1 m2 s1 d1 d2 s2 y1 y2 y3 y4 heq =>
    by_cases hsep : s1 = '/' ∧ s2 = '/'
    case neg =>
      rw [if_neg hsep] at h
      exact Option.noConfusion h
    case pos =>
      rw [if_pos hsep] at h
      split at h
      next a b c e f g hh i hva hvb hvc hve hvf hvg hvh hvi =>
        by_cases hrange : 1 ≤ 10 * a + b ∧ 10 * a + b ≤ 12 ∧ 1 ≤ 10 * c + e ∧ 10 * c + e ≤ 31
        case neg =>
          rw [if_neg hrange] at h
          exact Option.noConfusion h
        case pos =>
          rw [if_pos hrange] at h
          obtain ⟨ha, ha9⟩ := digitVal_eq_some hva
          obtain ⟨hb, hb9⟩ := digitVal_eq_some hvb
          obtain ⟨hc', hc9⟩ := digitVal_eq_some hvc
          obtain ⟨he, he9⟩ := digitVal_eq_some hve
          obtain ⟨hf, hf9⟩ := digitVal_eq_some hvf
          obtain ⟨hg, hg9⟩ := digitVal_eq_some hvg
          obtain ⟨hh2, hh9⟩ := digitVal_eq_some hvh
          obtain ⟨hi, hi9⟩ := digitVal_eq_some hvi
          injection h with hk
          subst hk
          have hcs : cs = [m1, m2, s1, d1, d2, s2, y1, y2, y3, y4] := heq
          have e1 : (10 * a + b) / 10 = a := by omega
          have e2 : (10 * a + b) % 10 = b := by omega
          have e3 : (10 * c + e) / 10 = c := by omega
          have e4 : (10 * c + e) % 10 = e := by omega
          have e5 : (1000 * f + 100 * g + 10 * hh + i) / 1000 = f := by omega
          have e6 : (1000 * f + 100 * g + 10 * hh + i) / 100 % 10 = g := by omega
          have e7 : (1000 * f + 100 * g + 10 * hh + i) / 10 % 10 = hh := by omega
          have e8 : (1000 * f + 100 * g + 10 * hh + i) % 10 = i := by omega
          refine ⟨?_, hrange.1, hrange.2.1, hrange.2.2.1, hrange.2.2.2, ?_⟩
          · show String.mk cs = _
            rw [hcs, ha, hb, hc', he, hf, hg, hh2, hi, hsep.1, hsep.2]
            unfold fmtDate
            simp only [e1, e2, e3, e4, e5, e6, e7, e8]
          · show 1000 * f + 100 * g + 10 * hh + i ≤ 9999
            omega
      all_goals exact Option.noConfusion h
  all_goals exact Option.noConfusion h

/-- A data row of the source workbook after `pd.read_excel` plus the
`pd.to_datetime(df_clean['Date Time'], errors='coerce')` conversion of
line 38: the combined timestamp is `none` exactly when the cell was
unparseable (`NaT`); `Event`, `Prior` and `Survey` pass through as text. -/
structure RawRow where
  ts : Option DT
  event : String
  prior : String
  survey : String
deriving DecidableEq

/-- A row of the working frame of `clean_spreadsheet`: the text `Date` and
`Time` columns (`none` models a `NaN` cell), the temporary `DateOrig`
column, and the three passthrough columns. -/
structure SRow where
  dateOrig : Option DateT
  date : Option String
  time : Option String
  event : String
  prior : String
  survey : String
deriving DecidableEq

/-- A row of the frame returned by `clean_spreadsheet`, after the
temporary `DateOrig` column is dropped (line 61). -/
structure OutRow where
  date : Option String
  time : Option String
  event : String
  prior : String
  survey : String
deriving DecidableEq

/-- Drop the `DateOrig` column of a row. -/
def SRow.toOut (r : SRow) : OutRow := ⟨r.date, r.time, r.event, r.prior, r.survey⟩

/-- Lines 41-49 of `clean_spreadsheet` applied to one row: `Date` and
`Time` are the `strftime` images of the parsed timestamp (`NaN` when the
timestamp is `NaT`), and `DateOrig` re-parses the `Date` text with
`pd.to_datetime(..., format="%m/%d/%Y", errors='coerce')`. -/
def mkSRow (r : RawRow) : SRow :=
  { dateOrig := (r.ts.map (fun x => fmtDate x.date)).bind parseDate
    date := r.ts.map (fun x => fmtDate x.date)
    time := r.ts.map (fun x => fmtTime x.time)
    event := r.event
    prior := r.prior
    survey := r.survey }

/-- Strict chronological comparison of calendar dates. -/
def dateLT (a b : DateT) : Bool :=
  decide (a.y < b.y) ||
    (a.y == b.y && (decide (a.m < b.m) || (a.m == b.m && decide (a.d < b.d))))

/-- Lexicographic comparison of character lists: Python string `<`, which
is how pandas compares the `HH:MM` strings of the `Time` column. -/
def charsLT : List Char → List Char → Bool
  | [], [] => false
  | [], _ :: _ => true
  | _ :: _, [] => false
  | a :: as, b :: bs => decide (a < b) || (a == b && charsLT as bs)

/-- String comparison, as used on the `Time` column. -/
def strLT (s t : String) : Bool := charsLT s.toList t.toList

/-- Lift a strict comparison to a nullable column with nulls placed last:
the `sort_values` default `na_position='last'`. -/
def optLT {α : Type} (lt : α → α → Bool) : Option α → Option α → Bool
  | some a, some b => lt a b
  | some _, none => true
  | none, _ => false

/-- Strict part of the `sort_values(by=['DateOrig', 'Time'])` key order of
line 52. -/
def keyLT (a b : SRow) : Bool :=
  optLT dateLT a.dateOrig b.dateOrig ||
    (decide (a.dateOrig = b.dateOrig) && optLT strLT a.time b.time)

/-- Row `a` may be placed no later than row `b` by the stable sort. -/
def sortLE (a b : SRow) : Prop := keyLT b a = false

instance : DecidableRel sortLE := fun a b => inferInstanceAs (Decidable (keyLT b a = false))

theorem dateLT_irrefl (a : DateT) : dateLT a a = false := by
  simp [dateLT]

theorem dateLT_asymm {a b : DateT} (h : dateLT a b = true) : dateLT b a = false := by
  simp only [dateLT, Bool.or_eq_true, decide_eq_true_eq, Bool.and_eq_true, beq_iff_eq,
    Bool.or_eq_false_iff, decide_eq_false_iff_not, Bool.and_eq_false_iff,
    Bool.not_eq_true, beq_eq_false_iff_ne, ne_eq] at h ⊢
  omega

theorem dateLT_trans {a b c : DateT} (h1 : dateLT a b = true) (h2 : dateLT b c = true) :
    dateLT a c = true := by
  simp only [dateLT, Bool.or_eq_true, decide_eq_true_eq, Bool.and_eq_true, beq_iff_eq] at h1 h2 ⊢
  omega

theorem dateLT_conn {a b : DateT} (h1 : dateLT a b = false) (h2 : dateLT b a = false) :
    a = b := by
  simp only [dateLT, Bool.or_eq_false_iff, decide_eq_false_iff_not, Bool.and_eq_false_iff,
    Bool.not_eq_true, beq_eq_false_iff_ne, ne_eq] at h1 h2
  obtain ⟨ay, am, ad⟩ := a
  obtain ⟨by', bm, bd⟩ := b
  simp only [DateT.mk.injEq]
  simp only at h1 h2
  omega

theorem charsLT_asymm : ∀ {as bs : List Char}, charsLT as bs = true → charsLT bs as = false
  | [], [], h => by simp [charsLT] at h
  | [], _ :: _, _ => by simp [charsLT]
  | _ :: _, [], h => by simp [charsLT] at h
  | a :: as, b :: bs, h => by
    simp only [charsLT, Bool.or_eq_true, decide_eq_true_eq, Bool.and_eq_true, beq_iff_eq] at h
    simp only [charsLT, Bool.or_eq_false_iff, decide_eq_false_iff_not, Bool.and_eq_false_iff,
      Bool.not_eq_true, beq_eq_false_iff_ne, ne_eq]
    rcases h with h | ⟨rfl, h⟩
    · exact ⟨not_lt_of_lt h, Or.inl (ne_of_gt h)⟩
    · exact ⟨lt_irrefl a, Or.inr (charsLT_asymm h)⟩

theorem charsLT_trans : ∀ {as bs cs : List Char}, charsLT as bs = true →
    charsLT bs cs = true → charsLT as cs = true
  | [], _ :: _, _ :: _, _, _ => by simp [charsLT]
  | [], _, [], h1, h2 => by cases bs0 : ‹List Char› <;> simp_all [charsLT]
  | _ :: _, [], _, h1, _ => by simp [charsLT] at h1
  | _ :: _, _ :: _, [], _, h2 => by simp [charsLT] at h2
  | a :: as, b :: bs, c :: cs, h1, h2 => by
    simp only [charsLT, Bool.or_eq_true, decide_eq_true_eq, Bool.and_eq_true, beq_iff_eq]
      at h1 h2 ⊢
    rcases h1 with h1 | ⟨rfl, h1⟩
    · rcases h2 with h2 | ⟨rfl, h2⟩
      · exact Or.inl (lt_trans h1 h2)
      · exact Or.inl h1
    · rcases h2 with h2 | ⟨rfl, h2⟩
      · exact Or.inl h2
      · exact Or.inr ⟨rfl, charsLT_trans h1 h2⟩

theorem charsLT_conn : ∀ {as bs : List Char}, charsLT as bs = false →
    charsLT bs as = false → as = bs
  | [], [], _, _ => rfl
  | [], _ :: _, h1, _ => by simp [charsLT] at h1
  | _ :: _, [], _, h2 => by simp [charsLT] at h2
  | a :: as, b :: bs, h1, h2 => by
    simp only [charsLT, Bool.or_eq_false_iff, decide_eq_false_iff_not, Bool.and_eq_false_iff,
      Bool.not_eq_true, beq_eq_false_iff_ne, ne_eq] at h1 h2
    have hab : a = b := le_antisymm (le_of_not_lt h2.1) (le_of_not_lt h1.1)
    subst hab
    rcases h1.2 with h | h
    · exact absurd rfl h
    · rcases h2.2 with h' | h'
      · exact absurd rfl h'
      · rw [charsLT_conn h h']

theorem stringExt {s t : String} (h : s.toList = t.toList) : s = t := by
  cases s
  cases t
  exact congrArg String.mk h

theorem charsLT_irrefl : ∀ as : List Char, charsLT as as = false
  | [] => rfl
  | a :: as => by simp [charsLT, charsLT_irrefl as]

theorem strLT_irrefl (s : String) : strLT s s = false := charsLT_irrefl s.toList

theorem strLT_asymm {s t : String} (h : strLT s t = true) : strLT t s = false :=
  charsLT_asymm h

theorem strLT_trans {s t u : String} (h1 : strLT s t = true) (h2 : strLT t u = true) :
    strLT s u = true :=
  charsLT_trans h1 h2

theorem strLT_conn {s t : String} (h1 : strLT s t = false) (h2 : strLT t s = false) : s = t :=
  stringExt (charsLT_conn h1 h2)

theorem optLT_irrefl {α : Type} (lt : α → α → Bool) (hirr : ∀ x, lt x x = false) :
    ∀ a : Option α, optLT lt a a = false
  | some a => hirr a
  | none => rfl

theorem optLT_asymm {α : Type} (lt : α → α → Bool)
    (hasym : ∀ {x y : α}, lt x y = true → lt y x = false) :
    ∀ {a b : Option α}, optLT lt a b = true → optLT lt b a = false
  | some _, some _, h => hasym h
  | some _, none, _ => rfl
  | none, some _, h => by simp [optLT] at h
  | none, none, h => by simp [optLT] at h

theorem optLT_trans {α : Type} (lt : α → α → Bool)
    (htr : ∀ {x y z : α}, lt x y = true → lt y z = true → lt x z = true) :
    ∀ {a b c : Option α}, optLT lt a b = true → optLT lt b c = true → optLT lt a c = true
  | some _, some _, some _, h1, h2 => htr h1 h2
  | some _, some _, none, _, _ => rfl
  | some _, none, _, _, h2 => by simp [optLT] at h2
  | none, _, _, h1, _ => by simp [optLT] at h1

theorem optLT_conn {α : Type} (lt : α → α → Bool)
    (hco : ∀ {x y : α}, lt x y = false → lt y x = false → x = y) :
    ∀ {a b : Option α}, optLT lt a b = false → optLT lt b a = false → a = b
  | some x, some y, h1, h2 => congrArg some (hco h1 h2)
  | some _, none, h1, _ => by simp [optLT] at h1
  | none, some _, _, h2 => by simp [optLT] at h2
  | none, none, _, _ => rfl

theorem optLT_ne {α : Type} (lt : α → α → Bool) (hirr : ∀ x, lt x x = false)
    {a b : Option α} (h : optLT lt a b = true) : a ≠ b := by
  intro he
  subst he
  rw [optLT_irrefl lt hirr] at h
  exact Bool.noConfusion h

theorem keyLT_irrefl (a : SRow) : keyLT a a = false := by
  simp [keyLT, optLT_irrefl dateLT dateLT_irrefl, optLT_irrefl strLT strLT_irrefl]

theorem keyLT_congr_left {a a' : SRow} (hd : a.dateOrig = a'.dateOrig)
    (ht : a.time = a'.time) (b : SRow) : keyLT a b = keyLT a' b := by
  simp [keyLT, hd, ht]

theorem keyLT_congr_right {a a' : SRow} (hd : a.dateOrig = a'.dateOrig)
    (ht : a.time = a'.time) (b : SRow) : keyLT b a = keyLT b a' := by
  simp [keyLT, hd, ht]

theorem keyLT_asymm {a b : SRow} (h : keyLT a b = true) : keyLT b a = false := by
  simp only [keyLT, Bool.or_eq_true, Bool.and_eq_true, decide_eq_true_eq] at h
  simp only [keyLT, Bool.or_eq_false_iff, Bool.and_eq_false_iff, decide_eq_false_iff_not]
  rcases h with h | ⟨hde, h⟩
  · refine ⟨optLT_asymm dateLT (fun hx => dateLT_asymm hx) h, Or.inl ?_⟩
    exact fun he => optLT_ne dateLT dateLT_irrefl h he.symm
  · constructor
    · rw [← hde]
      exact optLT_irrefl dateLT dateLT_irrefl _
    · exact Or.inr (optLT_asymm strLT (fun hx => strLT_asymm hx) h)

theorem keyLT_trans {a b c : SRow} (h1 : keyLT a b = true) (h2 : keyLT b c = true) :
    keyLT a c = true := by
  simp only [keyLT, Bool.or_eq_true, Bool.and_eq_true, decide_eq_true_eq] at h1 h2 ⊢
  rcases h1 with h1 | ⟨he1, h1⟩
  · rcases h2 with h2 | ⟨he2, h2⟩
    · exact Or.inl (optLT_trans dateLT (fun hx hy => dateLT_trans hx hy) h1 h2)
    · rw [← he2]
      exact Or.inl h1
  · rcases h2 with h2 | ⟨he2, h2⟩
    · rw [he1]
      exact Or.inl h2
    · exact Or.inr ⟨he1.trans he2, optLT_trans strLT (fun hx hy => strLT_trans hx hy) h1 h2⟩

theorem keyLT_conn {a b : SRow} (h1 : keyLT a b = false) (h2 : keyLT b a = false) :
    a.dateOrig = b.dateOrig ∧ a.time = b.time := by
  simp only [keyLT, Bool.or_eq_false_iff, Bool.and_eq_false_iff, decide_eq_false_iff_not]
    at h1 h2
  have hd : a.dateOrig = b.dateOrig :=
    optLT_conn dateLT (fun hx hy => dateLT_conn hx hy) h1.1 h2.1
  refine ⟨hd, ?_⟩
  rcases h1.2 with h | h
  · exact absurd hd h
  · rcases h2.2 with h' | h'
    · exact absurd hd.symm h'
    · exact optLT_conn strLT (fun hx hy => strLT_conn hx hy) h h'

instance : IsTotal SRow sortLE :=
  ⟨fun a b => by
    unfold sortLE
    cases hv : keyLT b a
    · exact Or.inl rfl
    · exact Or.inr (keyLT_asymm hv)⟩

instance : IsTrans SRow sortLE :=
  ⟨fun a b c h1 h2 => by
    unfold sortLE at h1 h2 ⊢
    cases hv : keyLT c a
    · rfl
    · exfalso
      cases hbc : keyLT b c
      · have hk := keyLT_conn h2 hbc
        rw [keyLT_congr_left hk.1.symm hk.2.symm] at h1
        rw [h1] at hv
        exact Bool.noConfusion hv
      · cases hab : keyLT a b
        · have hk := keyLT_conn h1 hab
          rw [keyLT_congr_right hk.1 hk.2] at h2
          rw [h2] at hv
          exact Bool.noConfusion hv
        · rw [keyLT_trans hv hab] at h2
          exact Bool.noConfusion h2⟩

/-- Lines 32-52 of `clean_spreadsheet`: build the working frame and apply
the stable `sort_values(by=['DateOrig', 'Time'])` (nulls last). -/
def sortStage (rs : List RawRow) : List SRow :=
  List.insertionSort sortLE (rs.map mkSRow)

/-- The `blank_group` helper (lines 55-57): keep the first row of a group
and overwrite the `Date` cell of every later row with the empty string. -/
def blank_group : List SRow → List SRow
  | [] => []
  | x :: xs => x :: xs.map (fun r => { r with date := some ("") })

/-- Chronological order on group keys. -/
def dateLE (a b : DateT) : Prop := dateLT b a = false

instance : DecidableRel dateLE := fun a b => inferInstanceAs (Decidable (dateLT b a = false))

instance : IsTotal DateT dateLE :=
  ⟨fun a b => by
    unfold dateLE
    cases hv : dateLT b a
    · exact Or.inl rfl
    · exact Or.inr (dateLT_asymm hv)⟩

instance : IsTrans DateT dateLE :=
  ⟨fun a b c h1 h2 => by
    unfold dateLE at h1 h2 ⊢
    cases hv : dateLT c a
    · rfl
    · exfalso
      cases hbc : dateLT b c
      · have hcb : c = b := dateLT_conn h2 hbc
        rw [hcb, h1] at hv
        exact Bool.noConfusion hv
      · cases hab : dateLT a b
        · have hba : b = a := dateLT_conn h1 hab
          rw [hba] at h2
          rw [h2] at hv
          exact Bool.noConfusion hv
        · rw [dateLT_trans hv hab] at h2
          exact Bool.noConfusion h2⟩

instance : IsAntisymm DateT dateLE :=
  ⟨fun a b h1 h2 => dateLT_conn h2 h1⟩

/-- The distinct non-null `DateOrig` keys, in ascending order: pandas
`groupby` sorts the group keys (`sort=True`) and excludes null keys
(`dropna=True`). -/
def groupKeys (L : List SRow) : List DateT :=
  List.insertionSort dateLE (L.filterMap (fun r => r.dateOrig)).dedup

/-- The rows of `L` whose `DateOrig` cell equals `k`, in frame order. -/
def groupRows (L : List SRow) (k : DateT) : List SRow :=
  L.filter (fun r => decide (r.dateOrig = some k))

/-- Line 58: `groupby('DateOrig', group_keys=False).apply(blank_group)` —
`blank_group` is applied to each non-null date group and the results are
concatenated in ascending key order. -/
def groupStage (L : List SRow) : List SRow :=
  ((groupKeys L).map (fun k => blank_group (groupRows L k))).flatten

/-- The whole row transform `clean_spreadsheet` (lines 19-63), from the
raw rows of the workbook to the rows of the returned frame. -/
def clean_spreadsheet (rs : List RawRow) : List OutRow :=
  (groupStage (sortStage rs)).map SRow.toOut

/-- True when the leading characters of the second list are exactly the
first list. -/
def leadsWith : List Char → List Char → Bool
  | [], _ => true
  | _ :: _, [] => false
  | a :: as, b :: bs => a == b && leadsWith as bs

/-- True when the first list occurs contiguously inside the second. -/
def containsSeq (pat : List Char) : List Char → Bool
  | [] => leadsWith pat []
  | b :: bs => leadsWith pat (b :: bs) || containsSeq pat bs

/-- A file name matches the glob `*EOW*.xlsx`: it ends in `.xlsx` and the
part before the extension contains `EOW`. -/
def matchesEOW (name : String) : Bool :=
  let cs := name.toList
  decide (5 ≤ cs.length) && decide (cs.drop (cs.length - 5) = ".xlsx".toList) &&
    containsSeq ("EOW").toList (cs.take (cs.length - 5))

/-- A directory entry: file name and modification time. -/
structure FileEntry where
  name : String
  mtime : Nat
deriving DecidableEq

/-- `find_latest_eow_file` (lines 5-17): glob `directory/*EOW*.xlsx` over
the given directory entries, raise `FileNotFoundError` when nothing
matches, otherwise return the path with the greatest modification time
(Python `max` keeps the first of several ties). -/
def find_latest_eow_file (directory : String) (entries : List FileEntry) :
    Except String String :=
  match entries.filter (fun e => matchesEOW e.name) with
  | [] =>
    Except.error ("No files matching " ++ (directory ++ "/*EOW*.xlsx") ++ " were found in " ++
      directory)
  | f :: fs =>
    Except.ok
      (directory ++ "/" ++ (fs.foldl (fun best e => if best.mtime < e.mtime then e else best) f).name)

/-- Earliest of a non-empty collection of dates (`DatetimeIndex.min`). -/
def minFold (p : DateT) (ps : List DateT) : DateT :=
  ps.foldl (fun x v => if dateLT v x then v else x) p

/-- Latest of a non-empty collection of dates (`DatetimeIndex.max`). -/
def maxFold (p : DateT) (ps : List DateT) : DateT :=
  ps.foldl (fun x v => if dateLT x v then v else x) p

/-- Lines 74-82 of `write_formatted_excel`: the report-period text. The
non-blank `Date` cells are re-parsed (`errors='coerce'`); `min`/`max`
skip the unparseable ones; `none` models the `ValueError` that
`strftime` raises on `NaT` when every non-blank cell is unparseable. -/
def report_period (col : List String) : Option String :=
  if (col.filter (fun c => decide (c ≠ ""))).isEmpty then some ("")
  else
    match (col.filter (fun c => decide (c ≠ ""))).filterMap parseDate with
    | [] => none
    | p :: ps =>
      some ("Period: " ++ fmtDate (minFold p ps) ++ " - " ++ fmtDate (maxFold p ps))

/-- The merged title cell (line 102). -/
def titleText (col : List String) : Option String :=
  (report_period col).map (fun p => "This Week in Markets:   " ++ p)

/-- The fill-forward state after one displayed row: a blank date repeats
the nearest preceding non-blank date. -/
def fillCell (cur : Option String) (r : OutRow) : Option String :=
  match r.date with
  | some s => if s = "" then cur else some s
  | none => none

/-- Recombine a displayed date text and time text into a `Date Time`
value, `none` when either is missing or unparseable. -/
def recombine (dcell : Option String) (tcell : Option String) : Option DT :=
  match dcell, tcell with
  | some ds, some ts =>
    match parseDate ds, parseTime ts with
    | some dv, some tv => some ⟨dv, tv⟩
    | _, _ => none
  | _, _ => none

/-- Reinterpret displayed rows as raw rows, treating a blank displayed
date as equal to the nearest preceding non-blank date and recombining it
with the displayed time into a `Date Time` value. -/
def refill : Option String → List OutRow → List RawRow
  | _, [] => []
  | cur, r :: rest =>
    ⟨recombine (fillCell cur r) r.time, r.event, r.prior, r.survey⟩ ::
      refill (fillCell cur r) rest

/-- The fill-forward state after a whole list of displayed rows. -/
def fillState (cur : Option String) : List OutRow → Option String
  | [] => cur
  | r :: rest => fillState (fillCell cur r) rest

/-- The per-row effect of `blank_group` on the non-first rows of a group. -/
def blankDate (r : SRow) : SRow := { r with date := some ("") }

theorem blank_group_cons (x : SRow) (xs : List SRow) :
    blank_group (x :: xs) = x :: xs.map blankDate := rfl

theorem blankDate_dateOrig (r : SRow) : (blankDate r).dateOrig = r.dateOrig := rfl

theorem blankDate_time (r : SRow) : (blankDate r).time = r.time := rfl

theorem mkSRow_wf (r : RawRow) {k : DateT} (h : (mkSRow r).dateOrig = some k) :
    (mkSRow r).date = some (fmtDate k) ∧ (mkSRow r).time.isSome := by
  cases hts : r.ts with
  | none =>
    unfold mkSRow at h
    rw [hts] at h
    simp at h
  | some x =>
    unfold mkSRow at h ⊢
    rw [hts] at h
    simp only [Option.map_some', Option.some_bind] at h
    have hinv := (parseDate_inv h).1
    simp only [hts, Option.map_some', hinv, Option.isSome_some, and_true]

theorem mem_sortStage {rs : List RawRow} {x : SRow} :
    x ∈ sortStage rs ↔ ∃ r ∈ rs, x = mkSRow r := by
  unfold sortStage
  rw [List.mem_insertionSort]
  simp only [List.mem_map]
  exact ⟨fun ⟨r, hr, he⟩ => ⟨r, hr, he.symm⟩, fun ⟨r, hr, he⟩ => ⟨r, hr, he.symm⟩⟩

theorem sortStage_sorted (rs : List RawRow) : List.Sorted sortLE (sortStage rs) :=
  List.sorted_insertionSort sortLE (rs.map mkSRow)

theorem mem_groupKeys {L : List SRow} {k : DateT} :
    k ∈ groupKeys L ↔ ∃ r ∈ L, r.dateOrig = some k := by
  unfold groupKeys
  rw [List.mem_insertionSort, List.mem_dedup, List.mem_filterMap]

theorem nodup_groupKeys (L : List SRow) : (groupKeys L).Nodup :=
  (List.perm_insertionSort dateLE _).nodup_iff.mpr (List.nodup_dedup _)

theorem groupKeys_sorted (L : List SRow) : List.Sorted dateLE (groupKeys L) :=
  List.sorted_insertionSort dateLE _

theorem groupKeys_chain (L : List SRow) :
    List.Chain' (fun k1 k2 => dateLT k1 k2 = true) (groupKeys L) := by
  refine List.Pairwise.chain' (((groupKeys_sorted L).and (nodup_groupKeys L)).imp ?_)
  intro a b ⟨hle, hne⟩
  cases hv : dateLT a b
  · exact absurd (dateLT_conn hv hle) hne
  · rfl

theorem mem_groupRows {L : List SRow} {k : DateT} {x : SRow} :
    x ∈ groupRows L k ↔ x ∈ L ∧ x.dateOrig = some k := by
  unfold groupRows
  rw [List.mem_filter]
  simp

theorem groupRows_ne_nil {L : List SRow} {k : DateT} (h : k ∈ groupKeys L) :
    groupRows L k ≠ [] := by
  obtain ⟨r, hr, hk⟩ := mem_groupKeys.mp h
  exact List.ne_nil_of_mem (mem_groupRows.mpr ⟨hr, hk⟩)

theorem blank_group_ne_nil {g : List SRow} (h : g ≠ []) : blank_group g ≠ [] := by
  cases g
  · exact absurd rfl h
  · simp [blank_group_cons]

theorem mem_blank_group {g : List SRow} {y : SRow} (h : y ∈ blank_group g) :
    y ∈ g ∨ ∃ x ∈ g, y = blankDate x := by
  cases g with
  | nil => simp [blank_group] at h
  | cons x xs =>
    rw [blank_group_cons] at h
    rcases List.mem_cons.mp h with rfl | h
    · exact Or.inl (List.mem_cons_self _ _)
    · obtain ⟨z, hz, rfl⟩ := List.mem_map.mp h
      exact Or.inr ⟨z, List.mem_cons_of_mem _ hz, rfl⟩

theorem block_key {L : List SRow} {k : DateT} {x : SRow}
    (h : x ∈ blank_group (groupRows L k)) : x.dateOrig = some k := by
  rcases mem_blank_group h with h | ⟨z, hz, rfl⟩
  · exact (mem_groupRows.mp h).2
  · exact (mem_groupRows.mp hz).2

theorem mem_groupStage {L : List SRow} {y : SRow} (h : y ∈ groupStage L) :
    ∃ k ∈ groupKeys L, y ∈ blank_group (groupRows L k) := by
  unfold groupStage at h
  rw [List.mem_flatten] at h
  obtain ⟨b, hb, hyb⟩ := h
  obtain ⟨k, hk, rfl⟩ := List.mem_map.mp hb
  exact ⟨k, hk, hyb⟩

theorem blocks_ne_nil (L : List SRow) :
    [] ∉ (groupKeys L).map (fun k => blank_group (groupRows L k)) := by
  intro hmem
  obtain ⟨k, hk, hk2⟩ := List.mem_map.mp hmem
  exact blank_group_ne_nil (groupRows_ne_nil hk) hk2

theorem chain'_groupStage {L : List SRow} {R : SRow → SRow → Prop}
    (hin : ∀ k ∈ groupKeys L, List.Chain' R (blank_group (groupRows L k)))
    (hbd : ∀ k1, k1 ∈ groupKeys L → ∀ k2, k2 ∈ groupKeys L → dateLT k1 k2 = true →
      ∀ x ∈ blank_group (groupRows L k1),
        ∀ y ∈ (blank_group (groupRows L k2)).head?, R x y) :
    List.Chain' R (groupStage L) := by
  unfold groupStage
  rw [List.chain'_flatten (blocks_ne_nil L)]
  constructor
  · intro b hb
    obtain ⟨k, hk, rfl⟩ := List.mem_map.mp hb
    exact hin k hk
  · rw [List.chain'_map]
    rw [List.chain'_iff_get]
    intro i hi
    have hadj := List.chain'_iff_get.mp (groupKeys_chain L) i hi
    intro x hx y hy
    have hxmem : x ∈ blank_group (groupRows L ((groupKeys L).get ⟨i, by omega⟩)) := by
      obtain ⟨hne, he⟩ := List.mem_getLast?_eq_getLast hx
      rw [he]
      exact List.getLast_mem hne
    exact hbd _ (List.get_mem _ _ _) _ (List.get_mem _ _ _) hadj x hxmem y hy

/-- Lift a strict comparison to a nullable column with nulls placed
first: the null-ordering rule pinned by the specification. -/
def optLTF {α : Type} (lt : α → α → Bool) : Option α → Option α → Bool
  | some a, some b => lt a b
  | none, some _ => true
  | _, _ => false

/-- Strict (date, time) comparison of rows with null dates and times
placed first. -/
def keyLTF (a b : SRow) : Bool :=
  optLTF dateLT a.dateOrig b.dateOrig ||
    (decide (a.dateOrig = b.dateOrig) && optLTF strLT a.time b.time)

/-- The pinned non-strict (date, time) row order: ascending with null
dates and times sorting first. -/
def specLE (a b : SRow) : Prop := keyLTF b a = false

theorem specLE_of_sortLE {a b : SRow} (ha : a.dateOrig.isSome) (hb : b.dateOrig.isSome)
    (hta : a.time.isSome) (htb : b.time.isSome) (h : sortLE a b) : specLE a b := by
  unfold sortLE at h
  unfold specLE
  obtain ⟨ka, hka⟩ := Option.isSome_iff_exists.mp ha
  obtain ⟨kb, hkb⟩ := Option.isSome_iff_exists.mp hb
  obtain ⟨ta, hta2⟩ := Option.isSome_iff_exists.mp hta
  obtain ⟨tb, htb2⟩ := Option.isSome_iff_exists.mp htb
  simp only [keyLT, keyLTF, hka, hkb, hta2, htb2, optLT, optLTF] at h ⊢
  exact h

theorem sortLE_of_keys {x y : SRow} {k1 k2 : DateT} (hx : x.dateOrig = some k1)
    (hy : y.dateOrig = some k2) (h : dateLT k1 k2 = true) : sortLE x y := by
  unfold sortLE
  simp only [keyLT, hx, hy, optLT, Bool.or_eq_false_iff, Bool.and_eq_false_iff,
    decide_eq_false_iff_not]
  refine ⟨dateLT_asymm h, Or.inl ?_⟩
  intro he
  injection he with he
  subst he
  rw [dateLT_irrefl] at h
  exact Bool.noConfusion h

theorem pairwise_blank_group {g : List SRow} (h : List.Pairwise sortLE g) :
    List.Pairwise sortLE (blank_group g) := by
  cases g with
  | nil => exact h
  | cons x xs =>
    rw [blank_group_cons]
    rw [List.pairwise_cons] at h ⊢
    constructor
    · intro y hy
      obtain ⟨z, hz, rfl⟩ := List.mem_map.mp hy
      have hs := h.1 z hz
      unfold sortLE at hs ⊢
      rw [keyLT_congr_left (blankDate_dateOrig z) (blankDate_time z)]
      exact hs
    · rw [List.pairwise_map]
      refine h.2.imp ?_
      intro a b hs
      unfold sortLE at hs ⊢
      rw [keyLT_congr_left (blankDate_dateOrig b) (blankDate_time b),
        keyLT_congr_right (blankDate_dateOrig a) (blankDate_time a)]
      exact hs

theorem groupRows_pairwise {L : List SRow} (hL : List.Sorted sortLE L) (k : DateT) :
    List.Pairwise sortLE (groupRows L k) :=
  List.Pairwise.filter _ hL

theorem chain'_sortLE_groupStage {L : List SRow} (hL : List.Sorted sortLE L) :
    List.Chain' sortLE (groupStage L) := by
  refine chain'_groupStage ?_ ?_
  · intro k _
    exact (pairwise_blank_group (groupRows_pairwise hL k)).chain'
  · intro k1 _ k2 _ hlt x hx y hy
    have hxk := block_key hx
    have hyk := block_key (List.mem_of_mem_head? hy)
    exact sortLE_of_keys hxk hyk hlt

theorem groupStage_cell_isSome {L : List SRow}
    (hWF : ∀ r ∈ L, ∀ k, r.dateOrig = some k → r.time.isSome)
    {y : SRow} (hy : y ∈ groupStage L) : y.dateOrig.isSome ∧ y.time.isSome := by
  obtain ⟨k, hk, hblk⟩ := mem_groupStage hy
  have hkey := block_key hblk
  refine ⟨by rw [hkey]; rfl, ?_⟩
  rcases mem_blank_group hblk with h | ⟨z, hz, rfl⟩
  · exact hWF y (mem_groupRows.mp h).1 k hkey
  · rw [blankDate_time]
    exact hWF z (mem_groupRows.mp hz).1 k ((blankDate_dateOrig z) ▸ hkey)

theorem sortStage_time_wf {rs : List RawRow} :
    ∀ r ∈ sortStage rs, ∀ k, r.dateOrig = some k → r.time.isSome := by
  intro r hr k hk
  obtain ⟨raw, _, rfl⟩ := mem_sortStage.mp hr
  exact (mkSRow_wf raw hk).2

theorem sortStage_date_wf {rs : List RawRow} :
    ∀ r ∈ sortStage rs, ∀ k, r.dateOrig = some k → r.date = some (fmtDate k) := by
  intro r hr k hk
  obtain ⟨raw, _, rfl⟩ := mem_sortStage.mp hr
  exact (mkSRow_wf raw hk).1

theorem blank_group_head (g : List SRow) : (blank_group g).head? = g.head? := by
  cases g
  · rfl
  · rfl

theorem chain'_specLE_groupStage (rs : List RawRow) :
    List.Chain' specLE (groupStage (sortStage rs)) := by
  have hc := chain'_sortLE_groupStage (sortStage_sorted rs)
  rw [List.chain'_iff_get] at hc ⊢
  intro i hi
  have hadj := hc i hi
  have hm1 : (groupStage (sortStage rs)).get ⟨i, by omega⟩ ∈ groupStage (sortStage rs) :=
    List.get_mem _ _ _
  have hm2 : (groupStage (sortStage rs)).get ⟨i + 1, by omega⟩ ∈ groupStage (sortStage rs) :=
    List.get_mem _ _ _
  obtain ⟨hd1, ht1⟩ := groupStage_cell_isSome sortStage_time_wf hm1
  obtain ⟨hd2, ht2⟩ := groupStage_cell_isSome sortStage_time_wf hm2
  exact specLE_of_sortLE hd1 hd2 ht1 ht2 hadj

theorem chain'_blanked_tail {k : DateT} :
    ∀ (xs : List SRow), (∀ z ∈ xs, z.dateOrig = some k) →
      List.Chain' (fun a b => (b.dateOrig = a.dateOrig → b.date = some ("")) ∧
        (b.dateOrig ≠ a.dateOrig → b.date = b.dateOrig.map fmtDate)) (xs.map blankDate)
  | [], _ => List.chain'_nil
  | [_], _ => by simp
  | z1 :: z2 :: zs, hall => by
    rw [List.map_cons, List.map_cons, List.chain'_cons]
    refine ⟨⟨fun _ => rfl, fun hne => absurd ?_ hne⟩, ?_⟩
    · rw [blankDate_dateOrig, blankDate_dateOrig, hall z2 (by simp), hall z1 (by simp)]
    · rw [← List.map_cons]
      exact chain'_blanked_tail (z2 :: zs) (fun z hz => hall z (List.mem_cons_of_mem _ hz))

theorem chain'_grouped_block {L : List SRow} {k : DateT} :
    List.Chain' (fun a b => (b.dateOrig = a.dateOrig → b.date = some ("")) ∧
      (b.dateOrig ≠ a.dateOrig → b.date = b.dateOrig.map fmtDate))
      (blank_group (groupRows L k)) := by
  cases hg : groupRows L k with
  | nil => simp [blank_group]
  | cons x xs =>
    have hxk : x.dateOrig = some k :=
      (mem_groupRows.mp (hg ▸ List.mem_cons_self x xs)).2
    have hall : ∀ z ∈ xs, z.dateOrig = some k := fun z hz =>
      (mem_groupRows.mp (hg ▸ List.mem_cons_of_mem x hz)).2
    rw [blank_group_cons]
    cases xs with
    | nil => simp
    | cons z zs =>
      rw [List.map_cons, List.chain'_cons]
      refine ⟨⟨fun _ => rfl, fun hne => absurd ?_ hne⟩, ?_⟩
      · rw [blankDate_dateOrig, hall z (by simp), hxk]
      · rw [← List.map_cons]
        exact chain'_blanked_tail (z :: zs) hall

theorem grouped_head_keeps_date {L : List SRow}
    (hWF : ∀ r ∈ L, ∀ k, r.dateOrig = some k → r.date = some (fmtDate k)) {k : DateT}
    {y : SRow} (hy : y ∈ (blank_group (groupRows L k)).head?) :
    y.date = y.dateOrig.map fmtDate := by
  rw [blank_group_head] at hy
  have hmem := List.mem_of_mem_head? hy
  obtain ⟨hyL, hyk⟩ := mem_groupRows.mp hmem
  rw [hyk, hWF y hyL k hyk]
  rfl

theorem chain'_grouped_groupStage {L : List SRow}
    (hWF : ∀ r ∈ L, ∀ k, r.dateOrig = some k → r.date = some (fmtDate k)) :
    List.Chain' (fun a b => (b.dateOrig = a.dateOrig → b.date = some ("")) ∧
      (b.dateOrig ≠ a.dateOrig → b.date = b.dateOrig.map fmtDate)) (groupStage L) := by
  refine chain'_groupStage (fun k _ => chain'_grouped_block) ?_
  intro k1 _ k2 _ hlt x hx y hy
  refine ⟨fun he => ?_, fun _ => grouped_head_keeps_date hWF hy⟩
  have hxk := block_key hx
  have hyk := block_key (List.mem_of_mem_head? hy)
  rw [hyk, hxk] at he
  injection he with he
  subst he
  rw [dateLT_irrefl] at hlt
  exact Bool.noConfusion hlt

theorem groupStage_head {L : List SRow}
    (hWF : ∀ r ∈ L, ∀ k, r.dateOrig = some k → r.date = some (fmtDate k))
    {y : SRow} (hy : y ∈ (groupStage L).head?) : y.date = y.dateOrig.map fmtDate := by
  unfold groupStage at hy
  cases hk : groupKeys L with
  | nil => rw [hk] at hy; simp at hy
  | cons k ks =>
    rw [hk, List.map_cons, List.flatten_cons,
      List.head?_append_of_ne_nil _
        (blank_group_ne_nil (groupRows_ne_nil (hk ▸ List.mem_cons_self k ks)))] at hy
    exact grouped_head_keeps_date hWF hy

/-- True for ASCII digit characters. -/
def isDigitChar (c : Char) : Bool := (digitVal c).isSome

/-- A string has the text shape `mm/dd/yyyy`: two digits, a slash, two
digits, a slash, four digits. -/
def isDateShape (s : String) : Bool :=
  match s.toList with
  | [a, b, c, d, e, f, g, h, i, j] =>
    isDigitChar a && isDigitChar b && c == '/' && isDigitChar d && isDigitChar e && f == '/' &&
      isDigitChar g && isDigitChar h && isDigitChar i && isDigitChar j
  | _ => false

/-- A string has the 24-hour text shape `HH:MM`. -/
def isTimeShape (s : String) : Bool :=
  match s.toList with
  | [a, b, c, d, e] => isDigitChar a && isDigitChar b && c == ':' && isDigitChar d && isDigitChar e
  | _ => false

theorem isDigitChar_digitChar {k : Nat} (hk : k ≤ 9) : isDigitChar (digitChar k) = true := by
  unfold isDigitChar
  rw [digitVal_digitChar hk]
  rfl

theorem isDateShape_fmtDate {x : DateT} (h : x.IsValid) : isDateShape (fmtDate x) = true := by
  obtain ⟨h1, h2, h3, h4, h5, h6⟩ := h
  unfold fmtDate isDateShape
  simp only [String.toList]
  rw [isDigitChar_digitChar (show x.m / 10 ≤ 9 by omega),
    isDigitChar_digitChar (show x.m % 10 ≤ 9 by omega),
    isDigitChar_digitChar (show x.d / 10 ≤ 9 by omega),
    isDigitChar_digitChar (show x.d % 10 ≤ 9 by omega),
    isDigitChar_digitChar (show x.y / 1000 ≤ 9 by omega),
    isDigitChar_digitChar (show x.y / 100 % 10 ≤ 9 by omega),
    isDigitChar_digitChar (show x.y / 10 % 10 ≤ 9 by omega),
    isDigitChar_digitChar (show x.y % 10 ≤ 9 by omega)]
  rfl

theorem isTimeShape_fmtTime {x : TimeT} (h : x.IsValid) : isTimeShape (fmtTime x) = true := by
  obtain ⟨h1, h2⟩ := h
  unfold fmtTime isTimeShape
  simp only [String.toList]
  rw [isDigitChar_digitChar (show x.hour / 10 ≤ 9 by omega),
    isDigitChar_digitChar (show x.hour % 10 ≤ 9 by omega),
    isDigitChar_digitChar (show x.minute / 10 ≤ 9 by omega),
    isDigitChar_digitChar (show x.minute % 10 ≤ 9 by omega)]
  rfl

/-- The worked scenario of the specification, section 8. -/
def demoRows : List RawRow :=
  [⟨some ⟨⟨2025, 3, 28⟩, ⟨8, 30⟩⟩, "CPI", "3.1", "3.0"⟩,
   ⟨some ⟨⟨2025, 3, 28⟩, ⟨10, 0⟩⟩, "PMI", "52", "53"⟩,
   ⟨some ⟨⟨2025, 3, 31⟩, ⟨9, 0⟩⟩, "GDP", "2.0", "2.1"⟩]

/-- Sanity check: the pipeline reproduces the worked scenario of the
specification on fully parseable input. -/
theorem clean_spreadsheet_demo :
    clean_spreadsheet demoRows =
      [⟨some ("03/28/2025"), some ("08:30"), "CPI", "3.1", "3.0"⟩,
       ⟨some (""), some ("10:00"), "PMI", "52", "53"⟩,
       ⟨some ("03/31/2025"), some ("09:00"), "GDP", "2.0", "2.1"⟩] := by
  decide

theorem foldl_latest (f : FileEntry) (fs : List FileEntry) :
    (fs.foldl (fun best e => if best.mtime < e.mtime then e else best) f) ∈ f :: fs ∧
      ∀ e2 ∈ f :: fs,
        e2.mtime ≤ (fs.foldl (fun best e => if best.mtime < e.mtime then e else best) f).mtime := by
  induction fs generalizing f with
  | nil => simp
  | cons g gs ih =>
    simp only [List.foldl_cons]
    obtain ⟨ihm, ihb⟩ := ih (if f.mtime < g.mtime then g else f)
    have hstep : f.mtime ≤ (if f.mtime < g.mtime then g else f).mtime ∧
        g.mtime ≤ (if f.mtime < g.mtime then g else f).mtime := by
      split_ifs <;> constructor <;> omega
    constructor
    · rcases List.mem_cons.mp ihm with he | he
      · rw [he]
        by_cases hfg : f.mtime < g.mtime
        · rw [if_pos hfg]
          exact List.mem_cons_of_mem _ (List.mem_cons_self _ _)
        · rw [if_neg hfg]
          exact List.mem_cons_self _ _
      · exact List.mem_cons_of_mem _ (List.mem_cons_of_mem _ he)
    · intro e2 he2
      rcases List.mem_cons.mp he2 with rfl | he2
      · exact le_trans hstep.1 (ihb _ (List.mem_cons_self _ _))
      · rcases List.mem_cons.mp he2 with rfl | he2
        · exact le_trans hstep.2 (ihb _ (List.mem_cons_self _ _))
        · exact ihb _ (List.mem_cons_of_mem _ he2)

/-- C1: counterexample evaluation — a raw row whose combined timestamp
fails to parse is silently dropped by `clean_spreadsheet` (pandas
`groupby` excludes rows with a `NaT` key), so the output row count is 0
for a 1-row input instead of 1 and no null-date row appears. -/
theorem C1_unparseable_row_dropped :
    clean_spreadsheet [⟨none, "CPI", "3.1", "3.0"⟩] = [] ∧
      ([⟨none, "CPI", "3.1", "3.0"⟩] : List RawRow).length = 1 := by
  exact ⟨by decide, rfl⟩

/-- C2: counterexample evaluation — the multiset of (event, prior,
survey) triples is not preserved by the transform: the triple of a row
with an unparseable timestamp disappears from the output. -/
theorem C2_triples_not_preserved :
    ¬((clean_spreadsheet [⟨none, "PMI", "52", "53"⟩]).map
          (fun r => (r.event, r.prior, r.survey)) : Multiset (String × String × String)) =
        (([⟨none, "PMI", "52", "53"⟩] : List RawRow).map
          (fun r => (r.event, r.prior, r.survey)) : Multiset (String × String × String)) := by
  decide

/-- C3: for adjacent rows a, b of the sorted, grouped result of the
transform, (date(a), time(a)) ≤ (date(b), time(b)) under the pinned rule
that null dates and times sort first (`specLE` compares the underlying
`DateOrig` date and the `Time` text of each row). -/
theorem C3_output_sorted (rs : List RawRow) (i : Nat)
    (h1 : i < (groupStage (sortStage rs)).length)
    (h2 : i + 1 < (groupStage (sortStage rs)).length) :
    specLE ((groupStage (sortStage rs)).get ⟨i, h1⟩)
      ((groupStage (sortStage rs)).get ⟨i + 1, h2⟩) := by
  have hlen : i < (groupStage (sortStage rs)).length - 1 := by omega
  have hc := List.chain'_iff_get.mp (chain'_specLE_groupStage rs) i hlen
  exact hc

set_option maxRecDepth 8000 in
/-- C3 witness at a concrete input. -/
theorem C3_output_sorted_witness :
    specLE ((groupStage (sortStage demoRows)).get ⟨0, by decide⟩)
      ((groupStage (sortStage demoRows)).get ⟨1, by decide⟩) :=
  C3_output_sorted demoRows 0 (by decide) (by decide)

/-- C4: in the transform's result, a row whose date equals the previous
row's date displays a blank date; a row whose date differs displays its
own date formatted as `mm/dd/yyyy`; and the first row keeps its date
text. -/
theorem C4_display_grouping (rs : List RawRow) (i : Nat)
    (h1 : i < (groupStage (sortStage rs)).length)
    (h2 : i + 1 < (groupStage (sortStage rs)).length) :
    (((groupStage (sortStage rs)).get ⟨i + 1, h2⟩).dateOrig =
        ((groupStage (sortStage rs)).get ⟨i, h1⟩).dateOrig →
      ((groupStage (sortStage rs)).get ⟨i + 1, h2⟩).date = some ("")) ∧
    (((groupStage (sortStage rs)).get ⟨i + 1, h2⟩).dateOrig ≠
        ((groupStage (sortStage rs)).get ⟨i, h1⟩).dateOrig →
      ((groupStage (sortStage rs)).get ⟨i + 1, h2⟩).date =
        ((groupStage (sortStage rs)).get ⟨i + 1, h2⟩).dateOrig.map fmtDate) ∧
    (∀ y ∈ (groupStage (sortStage rs)).head?, y.date = y.dateOrig.map fmtDate) := by
  have hlen : i < (groupStage (sortStage rs)).length - 1 := by omega
  have hc := List.chain'_iff_get.mp (chain'_grouped_groupStage sortStage_date_wf) i hlen
  exact ⟨hc.1, hc.2, fun y hy => groupStage_head sortStage_date_wf hy⟩

set_option maxRecDepth 8000 in
/-- C4 witness at a concrete input: the second row of the worked scenario
repeats the first row's date and is blanked. -/
theorem C4_display_grouping_witness :
    ((groupStage (sortStage demoRows)).get ⟨1, by decide⟩).date = some ("") :=
  (C4_display_grouping demoRows 0 (by decide) (by decide)).1 (by decide)

/-- C5: counterexample evaluation — the grouping pass of line 58 does not
preserve the row count: it drops the row whose `DateOrig` is null. -/
theorem C5_group_pass_drops_rows :
    (sortStage [⟨none, "GDP", "2.0", "2.1"⟩]).length = 1 ∧
      (groupStage (sortStage [⟨none, "GDP", "2.0", "2.1"⟩])).length = 0 := by
  exact ⟨by decide, by decide⟩

/-- C6: the empty-input half of the claim holds (empty in, empty out, and
the transform is a total function), but the single-row half fails: a
single row with an unparseable timestamp is dropped, not returned. -/
theorem C6_empty_and_single_row :
    clean_spreadsheet [] = [] ∧ clean_spreadsheet [⟨none, "ISM", "49", "50"⟩] = [] := by
  exact ⟨rfl, by decide⟩

/-- C7: with no matching file the resolver fails with an error naming the
glob pattern and the directory; with at least one match it returns the
path of a matching entry whose modification time is maximal. -/
theorem C7_find_latest (directory : String) (entries : List FileEntry) :
    (entries.filter (fun e => matchesEOW e.name) = [] →
      find_latest_eow_file directory entries =
        Except.error ("No files matching " ++ (directory ++ "/*EOW*.xlsx") ++
          " were found in " ++ directory)) ∧
    (entries.filter (fun e => matchesEOW e.name) ≠ [] →
      ∃ e ∈ entries.filter (fun e => matchesEOW e.name),
        find_latest_eow_file directory entries = Except.ok (directory ++ "/" ++ e.name) ∧
          ∀ e2 ∈ entries.filter (fun e => matchesEOW e.name), e2.mtime ≤ e.mtime) := by
  constructor
  · intro hf
    unfold find_latest_eow_file
    rw [hf]
  · intro hf
    unfold find_latest_eow_file
    cases hfil : entries.filter (fun e => matchesEOW e.name) with
    | nil => exact absurd hfil hf
    | cons f fs =>
      obtain ⟨hm, hb⟩ := foldl_latest f fs
      exact ⟨_, hm, rfl, hb⟩

/-- C7 witness at concrete inputs: an empty match set errors with the
pattern and directory in the message; a non-empty match set returns a
maximal-mtime match. -/
theorem C7_find_latest_witness :
    (find_latest_eow_file ("d") [⟨"a.xlsx", 5⟩] =
      Except.error ("No files matching " ++ (("d") ++ "/*EOW*.xlsx") ++ " were found in " ++
        ("d"))) ∧
    ∃ e ∈ ([⟨"aEOW.xlsx", 5⟩, ⟨"bEOW.xlsx", 9⟩] : List FileEntry).filter
        (fun e => matchesEOW e.name),
      find_latest_eow_file ("d") [⟨"aEOW.xlsx", 5⟩, ⟨"bEOW.xlsx", 9⟩] =
        Except.ok (("d") ++ "/" ++ e.name) ∧
        ∀ e2 ∈ ([⟨"aEOW.xlsx", 5⟩, ⟨"bEOW.xlsx", 9⟩] : List FileEntry).filter
          (fun e => matchesEOW e.name), e2.mtime ≤ e.mtime :=
  ⟨(C7_find_latest ("d") [⟨"a.xlsx", 5⟩]).1 (by decide),
   (C7_find_latest ("d") [⟨"aEOW.xlsx", 5⟩, ⟨"bEOW.xlsx", 9⟩]).2 (by decide)⟩

/-- C8: a parseable timestamp yields a `Date` cell that is its calendar
date as `mm/dd/yyyy` text and a `Time` cell that is its time of day as
24-hour `HH:MM` text (shape-checked and round-tripping to the original
values); an unparseable timestamp yields null `Date`, `Time` and
`DateOrig` cells with no failure. -/
theorem C8_cell_formats (r : RawRow) :
    (∀ x, r.ts = some x → x.IsValid →
      (mkSRow r).date = some (fmtDate x.date) ∧ isDateShape (fmtDate x.date) = true ∧
        parseDate (fmtDate x.date) = some x.date ∧
        (mkSRow r).time = some (fmtTime x.time) ∧ isTimeShape (fmtTime x.time) = true ∧
        parseTime (fmtTime x.time) = some x.time) ∧
    (r.ts = none → (mkSRow r).date = none ∧ (mkSRow r).time = none ∧
      (mkSRow r).dateOrig = none) := by
  constructor
  · intro x hts hv
    refine ⟨?_, isDateShape_fmtDate hv.1, parseDate_fmtDate hv.1, ?_,
      isTimeShape_fmtTime hv.2, parseTime_fmtTime hv.2⟩
    · simp only [mkSRow, hts, Option.map_some']
    · simp only [mkSRow, hts, Option.map_some']
  · intro hts
    refine ⟨?_, ?_, ?_⟩ <;> simp [mkSRow, hts]

/-- C8 witness at a concrete row. -/
theorem C8_cell_formats_witness :
    (mkSRow ⟨some ⟨⟨2025, 3, 28⟩, ⟨8, 30⟩⟩, "CPI", "3.1", "3.0"⟩).date = some ("03/28/2025") ∧
      (mkSRow ⟨some ⟨⟨2025, 3, 28⟩, ⟨8, 30⟩⟩, "CPI", "3.1", "3.0"⟩).time = some ("08:30") := by
  have h := (C8_cell_formats ⟨some ⟨⟨2025, 3, 28⟩, ⟨8, 30⟩⟩, "CPI", "3.1", "3.0"⟩).1
    ⟨⟨2025, 3, 28⟩, ⟨8, 30⟩⟩ rfl (by decide)
  exact ⟨by rw [h.1]; rfl, by rw [h.2.2.2.1]; rfl⟩

theorem dateLT_negtrans {a b c : DateT} (h1 : dateLT a b = false) (h2 : dateLT b c = false) :
    dateLT a c = false := by
  simp only [dateLT, Bool.or_eq_false_iff, decide_eq_false_iff_not, Bool.and_eq_false_iff,
    Bool.not_eq_true, beq_eq_false_iff_ne, ne_eq] at h1 h2 ⊢
  omega

theorem minFold_spec (p : DateT) (ps : List DateT) :
    minFold p ps ∈ p :: ps ∧ ∀ q ∈ p :: ps, dateLT q (minFold p ps) = false := by
  unfold minFold
  induction ps generalizing p with
  | nil => simp [dateLT_irrefl]
  | cons g gs ih =>
    simp only [List.foldl_cons]
    obtain ⟨ihm, ihb⟩ := ih (if dateLT g p then g else p)
    have hstep : dateLT p (if dateLT g p then g else p) = false ∧
        dateLT g (if dateLT g p then g else p) = false := by
      by_cases hgp : dateLT g p = true
      · rw [if_pos hgp]
        exact ⟨dateLT_asymm hgp, dateLT_irrefl g⟩
      · rw [if_neg hgp]
        exact ⟨dateLT_irrefl p, Bool.eq_false_iff.mpr hgp⟩
    have hstepres :
        dateLT (if dateLT g p then g else p)
          (gs.foldl (fun x v => if dateLT v x then v else x) (if dateLT g p then g else p)) =
          false :=
      ihb _ (List.mem_cons_self _ _)
    constructor
    · rcases List.mem_cons.mp ihm with he | he
      · rw [he]
        by_cases hgp : dateLT g p = true
        · rw [if_pos hgp]
          exact List.mem_cons_of_mem _ (List.mem_cons_self _ _)
        · rw [if_neg hgp]
          exact List.mem_cons_self _ _
      · exact List.mem_cons_of_mem _ (List.mem_cons_of_mem _ he)
    · intro q hq
      rcases List.mem_cons.mp hq with rfl | hq
      · exact dateLT_negtrans hstep.1 hstepres
      · rcases List.mem_cons.mp hq with rfl | hq
        · exact dateLT_negtrans hstep.2 hstepres
        · exact ihb _ (List.mem_cons_of_mem _ hq)

theorem maxFold_spec (p : DateT) (ps : List DateT) :
    maxFold p ps ∈ p :: ps ∧ ∀ q ∈ p :: ps, dateLT (maxFold p ps) q = false := by
  unfold maxFold
  induction ps generalizing p with
  | nil => simp [dateLT_irrefl]
  | cons g gs ih =>
    simp only [List.foldl_cons]
    obtain ⟨ihm, ihb⟩ := ih (if dateLT p g then g else p)
    have hstep : dateLT (if dateLT p g then g else p) p = false ∧
        dateLT (if dateLT p g then g else p) g = false := by
      by_cases hpg : dateLT p g = true
      · rw [if_pos hpg]
        exact ⟨dateLT_asymm hpg, dateLT_irrefl g⟩
      · rw [if_neg hpg]
        exact ⟨dateLT_irrefl p, Bool.eq_false_iff.mpr hpg⟩
    have hstepres :
        dateLT (gs.foldl (fun x v => if dateLT x v then v else x) (if dateLT p g then g else p))
          (if dateLT p g then g else p) = false :=
      ihb _ (List.mem_cons_self _ _)
    constructor
    · rcases List.mem_cons.mp ihm with he | he
      · rw [he]
        by_cases hpg : dateLT p g = true
        · rw [if_pos hpg]
          exact List.mem_cons_of_mem _ (List.mem_cons_self _ _)
        · rw [if_neg hpg]
          exact List.mem_cons_self _ _
      · exact List.mem_cons_of_mem _ (List.mem_cons_of_mem _ he)
    · intro q hq
      rcases List.mem_cons.mp hq with rfl | hq
      · exact dateLT_negtrans hstepres hstep.1
      · rcases List.mem_cons.mp hq with rfl | hq
        · exact dateLT_negtrans hstepres hstep.2
        · exact ihb _ (List.mem_cons_of_mem _ hq)

/-- C10: the report period in the title is computed only from the
non-blank displayed Date cells. When every cell is blank (or the table is
empty) the period text is the empty string and the computation still
succeeds; when at least one cell is non-blank (all displayed dates being
parseable `mm/dd/yyyy` text, as `clean_spreadsheet` guarantees) the title
shows `Period: <min> - <max>` over exactly those dates. -/
theorem C10_report_period (col : List String)
    (hp : ∀ c ∈ col, c ≠ "" → (parseDate c).isSome) :
    (col.filter (fun c => decide (c ≠ "")) = [] → report_period col = some ("") ∧
      titleText col = some ("This Week in Markets:   ")) ∧
    (col.filter (fun c => decide (c ≠ "")) ≠ [] →
      ∃ mn mx, report_period col = some ("Period: " ++ fmtDate mn ++ " - " ++ fmtDate mx) ∧
        titleText col = some ("This Week in Markets:   " ++
          ("Period: " ++ fmtDate mn ++ " - " ++ fmtDate mx)) ∧
        some mn ∈ (col.filter (fun c => decide (c ≠ ""))).map parseDate ∧
        some mx ∈ (col.filter (fun c => decide (c ≠ ""))).map parseDate ∧
        ∀ k, some k ∈ (col.filter (fun c => decide (c ≠ ""))).map parseDate →
          dateLT k mn = false ∧ dateLT mx k = false) := by
  constructor
  · intro hfil
    have hrp : report_period col = some ("") := by
      unfold report_period
      rw [hfil]
      rfl
    refine ⟨hrp, ?_⟩
    unfold titleText
    rw [hrp]
    rfl
  · intro hfil
    cases hfil2 : col.filter (fun c => decide (c ≠ "")) with
    | nil => exact absurd hfil2 hfil
    | cons c cs =>
      have hcmem : c ∈ col.filter (fun c => decide (c ≠ "")) := by
        rw [hfil2]
        exact List.mem_cons_self _ _
      have hcin := List.mem_filter.mp hcmem
      have hcne : c ≠ "" := by simpa using hcin.2
      have hk0 := hp c hcin.1 hcne
      obtain ⟨k0, hk0⟩ := Option.isSome_iff_exists.mp hk0
      cases hfm : (col.filter (fun c => decide (c ≠ ""))).filterMap parseDate with
      | nil =>
        exfalso
        have hmem : k0 ∈ (col.filter (fun c => decide (c ≠ ""))).filterMap parseDate :=
          List.mem_filterMap.mpr ⟨c, hcmem, hk0⟩
        rw [hfm] at hmem
        simp at hmem
      | cons p ps =>
        rw [hfil2] at hfm
        have hrp : report_period col =
            some ("Period: " ++ fmtDate (minFold p ps) ++ " - " ++ fmtDate (maxFold p ps)) := by
          unfold report_period
          rw [hfil2, hfm]
          rfl
        obtain ⟨hmn_mem, hmn_le⟩ := minFold_spec p ps
        obtain ⟨hmx_mem, hmx_ge⟩ := maxFold_spec p ps
        refine ⟨minFold p ps, maxFold p ps, hrp, ?_, ?_, ?_, ?_⟩
        · unfold titleText
          rw [hrp]
          rfl
        · rw [← hfm] at hmn_mem
          obtain ⟨cell, hcell, hpc⟩ := List.mem_filterMap.mp hmn_mem
          exact List.mem_map.mpr ⟨cell, hcell, hpc⟩
        · rw [← hfm] at hmx_mem
          obtain ⟨cell, hcell, hpc⟩ := List.mem_filterMap.mp hmx_mem
          exact List.mem_map.mpr ⟨cell, hcell, hpc⟩
        · intro k hk
          obtain ⟨cell, hcell, hpc⟩ := List.mem_map.mp hk
          have hkmem : k ∈ p :: ps := by
            rw [← hfm]
            exact List.mem_filterMap.mpr ⟨cell, hcell, hpc⟩
          exact ⟨hmn_le k hkmem, hmx_ge k hkmem⟩

set_option maxRecDepth 8000 in
/-- C10 witness at a concrete column. -/
theorem C10_report_period_witness :
    ∃ mn mx,
      report_period ["03/28/2025", "", "03/31/2025"] =
          some ("Period: " ++ fmtDate mn ++ " - " ++ fmtDate mx) ∧
        titleText ["03/28/2025", "", "03/31/2025"] = some ("This Week in Markets:   " ++
          ("Period: " ++ fmtDate mn ++ " - " ++ fmtDate mx)) ∧
        some mn ∈ ((["03/28/2025", "", "03/31/2025"] : List String).filter
          (fun c => decide (c ≠ ""))).map parseDate ∧
        some mx ∈ ((["03/28/2025", "", "03/31/2025"] : List String).filter
          (fun c => decide (c ≠ ""))).map parseDate ∧
        ∀ k, some k ∈ ((["03/28/2025", "", "03/31/2025"] : List String).filter
            (fun c => decide (c ≠ ""))).map parseDate →
          dateLT k mn = false ∧ dateLT mx k = false :=
  (C10_report_period (["03/28/2025", "", "03/31/2025"]) (by decide)).2 (by decide)

/-- Restore a row's `Date` text from its `DateOrig` key. -/
def unblank (r : SRow) : SRow := { r with date := r.dateOrig.map fmtDate }

theorem unblank_blankDate (r : SRow) : unblank (blankDate r) = unblank r := rfl

theorem unblank_dateOrig (r : SRow) : (unblank r).dateOrig = r.dateOrig := rfl

theorem unblank_time (r : SRow) : (unblank r).time = r.time := rfl

theorem unblank_eq_self {r : SRow} {k : DateT} (hk : r.dateOrig = some k)
    (hd : r.date = some (fmtDate k)) : unblank r = r := by
  unfold unblank
  have hh : r.dateOrig.map fmtDate = r.date := by
    rw [hk, hd]
    rfl
  rw [hh]

/-- A row's `Time` text was printed from a time of day and parses back to
it. -/
def TimeRT (r : SRow) : Prop :=
  ∃ t, r.time = some (fmtTime t) ∧ parseTime (fmtTime t) = some t

theorem fmtDate_ne_blank (x : DateT) : fmtDate x ≠ "" := by
  unfold fmtDate
  intro h
  have h2 := congrArg String.toList h
  simp at h2

theorem refill_append : ∀ (cur : Option String) (xs ys : List OutRow),
    refill cur (xs ++ ys) = refill cur xs ++ refill (fillState cur xs) ys
  | _, [], _ => rfl
  | cur, x :: xs, ys => by
    simp only [List.cons_append, refill, fillState, List.cons.injEq, true_and]
    exact refill_append (fillCell cur x) xs ys

theorem mkSRow_refill_row {r : SRow} {k : DateT} {t0 : TimeT}
    (hk : r.dateOrig = some k) (ht : r.time = some (fmtTime t0))
    (hpt : parseTime (fmtTime t0) = some t0)
    (hparse : parseDate (fmtDate k) = some k) :
    mkSRow ⟨recombine (some (fmtDate k)) (SRow.toOut r).time, (SRow.toOut r).event,
      (SRow.toOut r).prior, (SRow.toOut r).survey⟩ = unblank r := by
  have hco : recombine (some (fmtDate k)) (SRow.toOut r).time = some ⟨k, t0⟩ := by
    show recombine (some (fmtDate k)) r.time = some ⟨k, t0⟩
    rw [ht]
    show (match parseDate (fmtDate k), parseTime (fmtTime t0) with
      | some dv, some tv => some (⟨dv, tv⟩ : DT)
      | _, _ => none) = some ⟨k, t0⟩
    rw [hparse, hpt]
  rw [hco]
  show mkSRow ⟨some ⟨k, t0⟩, r.event, r.prior, r.survey⟩ = unblank r
  unfold mkSRow unblank
  simp only [Option.map_some', Option.some_bind, hparse, hk, ht]

theorem refill_tail {k : DateT} (hparse : parseDate (fmtDate k) = some k) :
    ∀ (t : List SRow), (∀ r ∈ t, r.dateOrig = some k ∧ r.date = some ("") ∧ TimeRT r) →
      (refill (some (fmtDate k)) (t.map SRow.toOut)).map mkSRow = t.map unblank ∧
        fillState (some (fmtDate k)) (t.map SRow.toOut) = some (fmtDate k)
  | [], _ => ⟨rfl, rfl⟩
  | r :: t, hall => by
    obtain ⟨hk, hd, t0, ht, hpt⟩ := hall r (List.mem_cons_self _ _)
    have ih := refill_tail hparse t (fun z hz => hall z (List.mem_cons_of_mem _ hz))
    have hfc : fillCell (some (fmtDate k)) (SRow.toOut r) = some (fmtDate k) := by
      show fillCell (some (fmtDate k)) ⟨r.date, r.time, r.event, r.prior, r.survey⟩ =
        some (fmtDate k)
      unfold fillCell
      rw [hd]
      rfl
    simp only [List.map_cons, refill, fillState, hfc]
    exact ⟨by rw [mkSRow_refill_row hk ht hpt hparse, ih.1], ih.2⟩

theorem refill_block {k : DateT} (hparse : parseDate (fmtDate k) = some k)
    (h : SRow) (t : List SRow) (hhk : h.dateOrig = some k)
    (hhd : h.date = some (fmtDate k)) (hht : TimeRT h)
    (htail : ∀ r ∈ t, r.dateOrig = some k ∧ r.date = some ("") ∧ TimeRT r)
    (cur : Option String) :
    (refill cur ((h :: t).map SRow.toOut)).map mkSRow = (h :: t).map unblank ∧
      fillState cur ((h :: t).map SRow.toOut) = some (fmtDate k) := by
  obtain ⟨t0, ht, hpt⟩ := hht
  have hfc : fillCell cur (SRow.toOut h) = some (fmtDate k) := by
    show fillCell cur ⟨h.date, h.time, h.event, h.prior, h.survey⟩ = some (fmtDate k)
    unfold fillCell
    rw [hhd]
    show (if fmtDate k = "" then cur else some (fmtDate k)) = some (fmtDate k)
    rw [if_neg (fmtDate_ne_blank k)]
  have ih := refill_tail hparse t htail
  simp only [List.map_cons, refill, fillState, hfc]
  exact ⟨by rw [mkSRow_refill_row hhk ht hpt hparse, ih.1], ih.2⟩

theorem sortStage_key_rt {rs : List RawRow} :
    ∀ r ∈ sortStage rs, ∀ k, r.dateOrig = some k → parseDate (fmtDate k) = some k := by
  intro r hr k hk
  obtain ⟨raw, _, rfl⟩ := mem_sortStage.mp hr
  cases hts : raw.ts with
  | none =>
    unfold mkSRow at hk
    rw [hts] at hk
    simp at hk
  | some x =>
    unfold mkSRow at hk
    rw [hts] at hk
    simp only [Option.map_some', Option.some_bind] at hk
    have hinv := (parseDate_inv hk).1
    rw [← hinv]
    exact hk

theorem sortStage_timeRT {rs : List RawRow} (hv : ∀ r ∈ rs, ∀ x ∈ r.ts, DT.IsValid x)
    {r : SRow} (hr : r ∈ sortStage rs) {k : DateT} (hk : r.dateOrig = some k) : TimeRT r := by
  obtain ⟨raw, hraw, rfl⟩ := mem_sortStage.mp hr
  cases hts : raw.ts with
  | none =>
    unfold mkSRow at hk
    rw [hts] at hk
    simp at hk
  | some x =>
    refine ⟨x.time, ?_, parseTime_fmtTime (hv raw hraw x (Option.mem_def.mpr hts)).2⟩
    unfold mkSRow
    rw [hts]
    rfl

theorem block_shape {rs : List RawRow} (hv : ∀ r ∈ rs, ∀ x ∈ r.ts, DT.IsValid x)
    {k : DateT} (hk : k ∈ groupKeys (sortStage rs)) :
    ∃ h t, blank_group (groupRows (sortStage rs) k) = h :: t ∧
      h.dateOrig = some k ∧ h.date = some (fmtDate k) ∧ TimeRT h ∧
      (∀ r ∈ t, r.dateOrig = some k ∧ r.date = some ("") ∧ TimeRT r) ∧
      parseDate (fmtDate k) = some k := by
  cases hg : groupRows (sortStage rs) k with
  | nil => exact absurd hg (groupRows_ne_nil hk)
  | cons h0 t0 =>
    have hmemh : h0 ∈ groupRows (sortStage rs) k := hg ▸ List.mem_cons_self _ _
    obtain ⟨hL, hkey⟩ := mem_groupRows.mp hmemh
    refine ⟨h0, t0.map blankDate, by rw [blank_group_cons], hkey,
      sortStage_date_wf h0 hL k hkey, sortStage_timeRT hv hL hkey, ?_,
      sortStage_key_rt h0 hL k hkey⟩
    intro r hr
    obtain ⟨z, hz, rfl⟩ := List.mem_map.mp hr
    have hmz : z ∈ groupRows (sortStage rs) k := hg ▸ List.mem_cons_of_mem h0 hz
    obtain ⟨hzL, hzk⟩ := mem_groupRows.mp hmz
    exact ⟨hzk, rfl, (sortStage_timeRT hv hzL hzk : TimeRT z)⟩

theorem refill_flatten {rs : List RawRow} (hv : ∀ r ∈ rs, ∀ x ∈ r.ts, DT.IsValid x) :
    ∀ (ks : List DateT), (∀ j ∈ ks, j ∈ groupKeys (sortStage rs)) → ∀ cur,
      (refill cur (((ks.map (fun j => blank_group (groupRows (sortStage rs) j))).flatten).map
          SRow.toOut)).map mkSRow =
        ((ks.map (fun j => blank_group (groupRows (sortStage rs) j))).flatten).map unblank
  | [], _, _ => rfl
  | k :: ks, hall, cur => by
    obtain ⟨h, t, hbl, hhk, hhd, hht, htail, hparse⟩ :=
      block_shape hv (hall k (List.mem_cons_self _ _))
    simp only [List.map_cons, List.flatten_cons, List.map_append]
    rw [refill_append, List.map_append, hbl]
    have hb := refill_block hparse h t hhk hhd hht htail cur
    rw [hb.1, hb.2,
      refill_flatten hv ks (fun j hj => hall j (List.mem_cons_of_mem _ hj)) (some (fmtDate k))]

theorem refill_out {rs : List RawRow} (hv : ∀ r ∈ rs, ∀ x ∈ r.ts, DT.IsValid x) :
    (refill none (clean_spreadsheet rs)).map mkSRow =
      (groupStage (sortStage rs)).map unblank := by
  unfold clean_spreadsheet groupStage
  exact refill_flatten hv (groupKeys (sortStage rs)) (fun j hj => hj) none

theorem M_sorted (rs : List RawRow) :
    List.Sorted sortLE ((groupStage (sortStage rs)).map unblank) := by
  have hp : List.Pairwise sortLE (groupStage (sortStage rs)) :=
    List.chain'_iff_pairwise.mp (chain'_sortLE_groupStage (sortStage_sorted rs))
  rw [List.Sorted, List.pairwise_map]
  refine hp.imp ?_
  intro a b hab
  unfold sortLE at hab ⊢
  rw [keyLT_congr_left (unblank_dateOrig b) (unblank_time b),
    keyLT_congr_right (unblank_dateOrig a) (unblank_time a)]
  exact hab

theorem sortStage_refill {rs : List RawRow} (hv : ∀ r ∈ rs, ∀ x ∈ r.ts, DT.IsValid x) :
    sortStage (refill none (clean_spreadsheet rs)) =
      (groupStage (sortStage rs)).map unblank := by
  unfold sortStage
  rw [refill_out hv]
  exact List.Sorted.insertionSort_eq (M_sorted rs)

theorem filter_blocks_none {L : List SRow} {k : DateT} :
    ∀ (ks : List DateT), k ∉ ks →
      ((ks.map (fun j => blank_group (groupRows L j))).flatten).filter
        (fun r => decide (r.dateOrig = some k)) = []
  | [], _ => rfl
  | j :: ks, hnm => by
    simp only [List.map_cons, List.flatten_cons, List.filter_append]
    have h1 : (blank_group (groupRows L j)).filter
        (fun r => decide (r.dateOrig = some k)) = [] := by
      refine List.filter_eq_nil_iff.mpr ?_
      intro r hr
      have hrk := block_key hr
      simp only [decide_eq_true_eq, hrk]
      intro he
      injection he with he
      exact hnm (he ▸ List.mem_cons_self j ks)
    rw [h1, filter_blocks_none ks (fun hx => hnm (List.mem_cons_of_mem _ hx))]
    rfl

theorem filter_blocks_aux {L : List SRow} {k : DateT} :
    ∀ (ks : List DateT), ks.Nodup → k ∈ ks →
      ((ks.map (fun j => blank_group (groupRows L j))).flatten).filter
        (fun r => decide (r.dateOrig = some k)) = blank_group (groupRows L k)
  | [], _, hmem => absurd hmem (List.not_mem_nil k)
  | j :: ks, hnd, hmem => by
    simp only [List.map_cons, List.flatten_cons, List.filter_append]
    rcases List.mem_cons.mp hmem with rfl | hmem2
    · have h1 : (blank_group (groupRows L k)).filter
          (fun r => decide (r.dateOrig = some k)) = blank_group (groupRows L k) := by
        refine List.filter_eq_self.mpr ?_
        intro r hr
        simp only [decide_eq_true_eq]
        exact block_key hr
      rw [h1, filter_blocks_none ks (List.nodup_cons.mp hnd).1, List.append_nil]
    · have hjk : j ≠ k := by
        intro he
        exact (List.nodup_cons.mp hnd).1 (he ▸ hmem2)
      have h1 : (blank_group (groupRows L j)).filter
          (fun r => decide (r.dateOrig = some k)) = [] := by
        refine List.filter_eq_nil_iff.mpr ?_
        intro r hr
        have hrk := block_key hr
        simp only [decide_eq_true_eq, hrk]
        intro he
        injection he with he
        exact hjk he
      rw [h1, filter_blocks_aux ks (List.nodup_cons.mp hnd).2 hmem2]
      rfl

theorem filter_blocks {L : List SRow} {k : DateT} (hk : k ∈ groupKeys L) :
    (groupStage L).filter (fun r => decide (r.dateOrig = some k)) =
      blank_group (groupRows L k) := by
  unfold groupStage
  exact filter_blocks_aux (groupKeys L) (nodup_groupKeys L) hk

theorem groupRows_map_unblank (A : List SRow) (k : DateT) :
    groupRows (A.map unblank) k = (groupRows A k).map unblank := by
  unfold groupRows
  rw [List.filter_map]
  rfl

theorem unblank_block {rs : List RawRow} {k : DateT} :
    (blank_group (groupRows (sortStage rs) k)).map unblank = groupRows (sortStage rs) k := by
  cases hg : groupRows (sortStage rs) k with
  | nil => rfl
  | cons h0 t0 =>
    rw [blank_group_cons, List.map_cons, List.map_map]
    have hmemh : h0 ∈ groupRows (sortStage rs) k := hg ▸ List.mem_cons_self _ _
    obtain ⟨hL, hkey⟩ := mem_groupRows.mp hmemh
    rw [unblank_eq_self hkey (sortStage_date_wf h0 hL k hkey)]
    have ht : ∀ z ∈ t0, (unblank ∘ blankDate) z = z := by
      intro z hz
      have hmz : z ∈ groupRows (sortStage rs) k := hg ▸ List.mem_cons_of_mem h0 hz
      obtain ⟨hzL, hzk⟩ := mem_groupRows.mp hmz
      show unblank (blankDate z) = z
      rw [unblank_blankDate]
      exact unblank_eq_self hzk (sortStage_date_wf z hzL k hzk)
    rw [show t0.map (unblank ∘ blankDate) = t0.map id from List.map_congr_left ht, List.map_id]

theorem groupKeys_ext {A B : List SRow}
    (h : ∀ k, (∃ r ∈ A, r.dateOrig = some k) ↔ ∃ r ∈ B, r.dateOrig = some k) :
    groupKeys A = groupKeys B := by
  refine List.eq_of_perm_of_sorted ?_ (groupKeys_sorted A) (groupKeys_sorted B)
  refine (List.perm_ext_iff_of_nodup (nodup_groupKeys A) (nodup_groupKeys B)).mpr ?_
  intro k
  rw [mem_groupKeys, mem_groupKeys]
  exact h k

theorem mem_groupStage_of {L : List SRow} {k : DateT} (hk : k ∈ groupKeys L)
    {y : SRow} (hy : y ∈ blank_group (groupRows L k)) : y ∈ groupStage L := by
  unfold groupStage
  rw [List.mem_flatten]
  exact ⟨_, List.mem_map.mpr ⟨k, hk, rfl⟩, hy⟩

theorem groupKeys_M_eq (rs : List RawRow) :
    groupKeys ((groupStage (sortStage rs)).map unblank) = groupKeys (sortStage rs) := by
  apply groupKeys_ext
  intro k
  constructor
  · rintro ⟨r, hr, hk⟩
    obtain ⟨z, hz, rfl⟩ := List.mem_map.mp hr
    rw [unblank_dateOrig] at hk
    obtain ⟨j, hj, hblk⟩ := mem_groupStage hz
    have hzk := block_key hblk
    rw [hzk] at hk
    injection hk with hk
    subst hk
    exact mem_groupKeys.mp hj
  · rintro ⟨r, hr, hk⟩
    have hkk : k ∈ groupKeys (sortStage rs) := mem_groupKeys.mpr ⟨r, hr, hk⟩
    obtain ⟨y, hy⟩ := List.exists_mem_of_ne_nil _ (blank_group_ne_nil (groupRows_ne_nil hkk))
    refine ⟨unblank y, List.mem_map.mpr ⟨y, mem_groupStage_of hkk hy, rfl⟩, ?_⟩
    rw [unblank_dateOrig]
    exact block_key hy

theorem groupStage_M_eq (rs : List RawRow) :
    groupStage ((groupStage (sortStage rs)).map unblank) = groupStage (sortStage rs) := by
  have hmap : ∀ k ∈ groupKeys (sortStage rs),
      blank_group (groupRows ((groupStage (sortStage rs)).map unblank) k) =
        blank_group (groupRows (sortStage rs) k) := by
    intro k hk
    rw [groupRows_map_unblank,
      show groupRows (groupStage (sortStage rs)) k = blank_group (groupRows (sortStage rs) k)
        from filter_blocks hk,
      unblank_block]
  show ((groupKeys ((groupStage (sortStage rs)).map unblank)).map
      (fun k => blank_group (groupRows ((groupStage (sortStage rs)).map unblank) k))).flatten =
    groupStage (sortStage rs)
  rw [groupKeys_M_eq, List.map_congr_left hmap]
  rfl

/-- C9: the Row Transformer is idempotent — re-running `clean_spreadsheet`
on its own output, reading each blank displayed date as the nearest
preceding non-blank date (`refill`), reproduces that output exactly, for
raw rows whose parsed timestamps are valid pandas timestamps. -/
theorem C9_idempotent (rs : List RawRow)
    (hv : ∀ r ∈ rs, ∀ x ∈ r.ts, DT.IsValid x) :
    clean_spreadsheet (refill none (clean_spreadsheet rs)) = clean_spreadsheet rs := by
  show (groupStage (sortStage (refill none (clean_spreadsheet rs)))).map SRow.toOut = _
  rw [sortStage_refill hv, groupStage_M_eq]
  rfl

set_option maxRecDepth 8000 in
/-- C9 witness at the worked scenario of the specification. -/
theorem C9_idempotent_witness :
    clean_spreadsheet (refill none (clean_spreadsheet demoRows)) = clean_spreadsheet demoRows :=
  C9_idempotent demoRows (by decide)
